import Mathlib

/-!
Verification of the LongT5 attention-mask and block-partitioning core
(`src/longt5/attention.rs`): a shallow embedding of the five tensor
helpers (`pad_to_multiple`, `split_into_blocks`, `concatenate_3_blocks`,
`make_3blocks_relative_position_ids` / `mask_local_attention_mask` /
`get_local_attention_mask`, and `make_global_fixed_block_ids`) together
with theorems settling the specification claims about them.

Tensors are modelled as a flat row-major list of rationals plus a shape
vector; fallible torch operations return `Option`.  Rust's truncated
integer `%` and `/` are `Int.tmod` / `Int.tdiv`; torch's floored
`remainder` is written out explicitly.  Floating point arithmetic is
modelled exactly over `ℚ` (all quantities the claims touch are integral
multiples of `1 / global_block_size`).
-/

namespace Longt5Attention

/-- A dense tensor: shape vector and flat row-major data. -/
@[ext]
structure Tensor where
  shape : List Nat
  data : List ℚ
deriving DecidableEq, Repr

/-- `data.length` matches the shape, as every tensor built by torch does. -/
def Tensor.wf (x : Tensor) : Prop := x.data.length = x.shape.prod

instance (x : Tensor) : Decidable x.wf := by unfold Tensor.wf; infer_instance

/-- All-zero tensor of the given shape (`Tensor::zeros`; also stands in for
`Tensor::empty`, which is only ever produced here with zero elements). -/
def Tensor.zeros (shape : List Nat) : Tensor :=
  ⟨shape, List.replicate shape.prod 0⟩

/-- torch constant-mode padding of a single dimension: `left` / `right`
entries of `v` are added (or trimmed, when negative) before / after the
existing rows along `dim`.  Row `i` of the result along `dim` reads source
row `i - left` when that is in range and is filled with `v` otherwise.
Errors when the resulting size is negative or `dim` is out of range. -/
def Tensor.padDim (x : Tensor) (dim : Nat) (left right : Int) (v : ℚ) :
    Option Tensor :=
  if dim < x.shape.length then
    let oldSize := x.shape.getD dim 0
    let newSizeZ : Int := (oldSize : Int) + left + right
    if newSizeZ < 0 then none
    else
      let newSize := newSizeZ.toNat
      let outer := (x.shape.take dim).prod
      let inner := (x.shape.drop (dim + 1)).prod
      some ⟨x.shape.set dim newSize,
        (List.range outer).flatMap (fun o =>
          (List.range newSize).flatMap (fun i =>
            (List.range inner).map (fun j =>
              let src : Int := (i : Int) - left
              if 0 ≤ src ∧ src < (oldSize : Int) then
                x.data.getD (o * (oldSize * inner) + src.toNat * inner + j) 0
              else v)))⟩
  else none

/-- torch `F.pad` with a flat pad list: consecutive pairs
`(pad[2k], pad[2k+1])` are the left/right amounts for dimension
`rank - 1 - k` (pairs run from the last dimension backwards). -/
def torchPad (x : Tensor) (padVec : List Int) (v : ℚ) : Option Tensor :=
  if padVec.length % 2 = 1 ∨ x.shape.length < padVec.length / 2 then none
  else
    (List.range (padVec.length / 2)).foldl
      (fun acc k => acc.bind fun t =>
        t.padDim (x.shape.length - 1 - k) (padVec.getD (2 * k) 0)
          (padVec.getD (2 * k + 1) 0) v)
      (some x)

/-- `pad_to_multiple` from the source.  `pad_length = -x_size[dim] %
block_length` uses Rust's truncated `%` (`Int.tmod`), so for a
non-multiple size it is negative; the pad vector is built index-wise and
then flat-reversed before being handed to torch `pad`.  Rust `%` by zero
panics, modelled as `none`. -/
def pad_to_multiple (x : Tensor) (block_length : Int) (dim : Nat)
    (pad_value : ℚ) : Option Tensor :=
  if block_length = 0 then none
  else if dim < x.shape.length then
    let n : Int := (x.shape.getD dim 0 : Int)
    let pad_length := Int.tmod (-n) block_length
    if x.shape.any (fun el => el = 0) then
      some (Tensor.zeros (x.shape.set dim (n + pad_length).toNat))
    else
      let pad0 := List.replicate (2 * x.shape.length) (0 : Int)
      torchPad x ((pad0.set (2 * dim + 1) pad_length).reverse) pad_value
  else none

/-- torch `reshape`: the element count of the target shape must match the
tensor's element count; negative target sizes error. -/
def Tensor.reshape (x : Tensor) (newShape : List Int) : Option Tensor :=
  if newShape.any (fun el => el < 0) then none
  else if (newShape.map Int.toNat).prod = x.shape.prod then
    some ⟨newShape.map Int.toNat, x.data⟩
  else none

/-- `Vec::insert` at index `i` (the Rust code inserts twice into the size
vector without removing the original entry). -/
def listInsert (i : Nat) (a : α) (l : List α) : List α :=
  l.take i ++ a :: l.drop i

/-- `split_into_blocks` from the source.  The size vector is captured
before the (possible) `pad_to_multiple` call and never refreshed, and the
two `insert`s leave the original `x_size[dim]` entry in place, exactly as
the Rust code does. -/
def split_into_blocks (x : Tensor) (block_length : Int) (dim : Nat) :
    Option Tensor :=
  if block_length = 0 then none
  else if dim < x.shape.length then
    let n : Int := (x.shape.getD dim 0 : Int)
    (if Int.tmod n block_length ≠ 0 then pad_to_multiple x block_length dim 0
     else some x).bind fun x' =>
      let num_blocks := Int.tdiv n block_length
      let xsize := listInsert dim num_blocks
        (listInsert dim block_length (x.shape.map (Int.ofNat)))
      if xsize.any (fun el => el = 0) then
        if xsize.any (fun el => el < 0) then none
        else some (Tensor.zeros (xsize.map Int.toNat))
      else x'.reshape xsize
  else none

/-- torch `narrow(dim, start, length)`: the slice `[start, start+length)`
along `dim`; errors when `start + length` exceeds the size of `dim`. -/
def Tensor.narrow (x : Tensor) (dim : Nat) (start length : Nat) :
    Option Tensor :=
  if dim < x.shape.length then
    let size := x.shape.getD dim 0
    if start + length ≤ size then
      let outer := (x.shape.take dim).prod
      let inner := (x.shape.drop (dim + 1)).prod
      some ⟨x.shape.set dim length,
        (List.range outer).flatMap (fun o =>
          (List.range length).flatMap (fun i =>
            (List.range inner).map (fun j =>
              x.data.getD (o * (size * inner) + (start + i) * inner + j) 0)))⟩
    else none
  else none

/-- torch `cat` along `dim`: all shapes must agree away from `dim`; the
slices of each tensor are interleaved per outer index. -/
def Tensor.cat (xs : List Tensor) (dim : Nat) : Option Tensor :=
  match xs with
  | [] => none
  | x0 :: _ =>
    if dim < x0.shape.length ∧
        xs.all (fun t => t.shape.eraseIdx dim = x0.shape.eraseIdx dim) then
      let inner := (x0.shape.drop (dim + 1)).prod
      let outer := (x0.shape.take dim).prod
      let newSize := (xs.map (fun t => t.shape.getD dim 0)).sum
      some ⟨x0.shape.set dim newSize,
        ((List.range outer).map (fun o =>
          (xs.map (fun t =>
            let sz := t.shape.getD dim 0
            ((t.data.drop (o * (sz * inner))).take (sz * inner)))).flatten)).flatten⟩
    else none

/-- `concatenate_3_blocks` from the source.  The pad vector sets flat
indices `block_dim` and `block_dim + 1` to `1` and is then reversed as a
flat list, exactly as the Rust code does (so the `(left, right)` pairs it
encodes are not the symmetric one-block padding of `block_dim`). -/
def concatenate_3_blocks (x : Tensor) (block_dim : Nat) (sequence_dim : Nat)
    (pad_value : Option ℚ) : Option Tensor :=
  if block_dim < x.shape.length then
    let num_blocks := x.shape.getD block_dim 0
    let pad0 := List.replicate (2 * x.shape.length) (0 : Int)
    let padv := ((pad0.set block_dim 1).set (block_dim + 1) 1).reverse
    (torchPad x padv (pad_value.getD 0)).bind fun xp =>
      match xp.narrow block_dim 0 num_blocks, xp.narrow block_dim 1 num_blocks,
          xp.narrow block_dim 2 num_blocks with
      | some b0, some b1, some b2 => Tensor.cat [b0, b1, b2] sequence_dim
      | _, _, _ => none
  else none

/-- torch `unsqueeze(d)`: insert a dimension of size 1 (negative `d`
counts from the end). -/
def Tensor.unsqueeze (x : Tensor) (d : Int) : Option Tensor :=
  let rank := x.shape.length
  let d' : Int := if d < 0 then d + rank + 1 else d
  if 0 ≤ d' ∧ d' ≤ (rank : Int) then
    some ⟨listInsert d'.toNat 1 x.shape, x.data⟩
  else none

/-- Shapes broadcast together (aligned from the right; a size of 1
stretches to match). -/
def broadcastShape : List Nat → List Nat → Option (List Nat)
  | s1, s2 =>
    let r1 := s1.reverse
    let r2 := s2.reverse
    let n := max r1.length r2.length
    ((List.range n).mapM (fun k =>
      match r1.getD k 1, r2.getD k 1 with
      | a, b => if a = b then some a
                else if a = 1 then some b
                else if b = 1 then some a
                else none)).map List.reverse

/-- Flat row-major index of a coordinate vector. -/
def flatIndex (shape coords : List Nat) : Nat :=
  (List.zip coords shape).foldl (fun acc p => acc * p.2 + p.1) 0

/-- All coordinate vectors of a shape, in row-major order. -/
def allCoords : List Nat → List (List Nat)
  | [] => [[]]
  | s :: rest =>
    (List.range s).flatMap (fun i => (allCoords rest).map (fun cs => i :: cs))

/-- Entry of `x` at a (possibly longer, broadcast) coordinate vector:
the trailing coordinates are used and size-1 dimensions read index 0. -/
def Tensor.atCoords (x : Tensor) (coords : List Nat) : ℚ :=
  let cs := coords.drop (coords.length - x.shape.length)
  let cs' := List.zipWith (fun c s => if s = 1 then 0 else c) cs x.shape
  x.data.getD (flatIndex x.shape cs') 0

/-- Broadcasting elementwise binary operation. -/
def Tensor.binop (f : ℚ → ℚ → ℚ) (x y : Tensor) : Option Tensor :=
  (broadcastShape x.shape y.shape).map (fun s =>
    ⟨s, (allCoords s).map (fun cs => f (x.atCoords cs) (y.atCoords cs))⟩)

/-- torch `logical_and` on 0/1 data. -/
def landQ (a b : ℚ) : ℚ := if a ≠ 0 ∧ b ≠ 0 then 1 else 0

/-- `make_3blocks_relative_position_ids` from the source: offsets from
each centre-block position to every position of the 3-wide window. -/
def make_3blocks_relative_position_ids (block_length : Int) : Option Tensor :=
  if block_length < 0 then none
  else
    let position_ids : Tensor :=
      ⟨[(3 * block_length).toNat],
        (List.range (3 * block_length).toNat).map (fun i => (i : ℚ))⟩
    (position_ids.narrow 0 block_length.toNat block_length.toNat).bind
      fun center_position_ids =>
        (position_ids.unsqueeze 0).bind fun a =>
          (center_position_ids.unsqueeze 1).bind fun b =>
            Tensor.binop (fun u v => u - v) a b

/-- `mask_local_attention_mask` from the source: conjoin the pair mask
with the `abs(relative_position) < block_length` locality mask. -/
def mask_local_attention_mask (local_attention_mask : Tensor)
    (block_length : Int) : Option Tensor :=
  (make_3blocks_relative_position_ids block_length).bind
    fun relative_position_ids =>
      let locality0 : Tensor :=
        ⟨relative_position_ids.shape,
          (relative_position_ids.data.map (fun q => |q|)).map
            (fun q => if q < (block_length : ℚ) then 1 else 0)⟩
      (locality0.unsqueeze 0).bind fun l1 =>
        (l1.unsqueeze 0).bind fun locality_mask =>
          Tensor.binop landQ local_attention_mask locality_mask

/-- `get_local_attention_mask` from the source. -/
def get_local_attention_mask (attention_mask : Tensor) (block_length : Int) :
    Option Tensor :=
  (split_into_blocks attention_mask block_length 1).bind
    fun blocked_attention_mask =>
      (concatenate_3_blocks blocked_attention_mask 1 2 none).bind
        fun three_blocked_attention_mask =>
          (blocked_attention_mask.unsqueeze (-1)).bind fun bu =>
            (three_blocked_attention_mask.unsqueeze (-2)).bind fun tu =>
              (Tensor.binop landQ bu tu).bind fun lam =>
                (mask_local_attention_mask lam block_length).bind
                  fun local_attention_mask => local_attention_mask.unsqueeze 1

/-! ### `make_global_fixed_block_ids`

The attention mask is a `[batch, seq_len]` matrix, embedded as a list of
rows; the per-row computation mirrors the tensor expressions of the
source line by line. -/

/-- torch `remainder` (sign of the divisor, i.e. floored modulus). -/
def tremainder (a b : Int) : Int := a - b * Int.fdiv a b

/-- Inclusive running sum (torch `cumsum` along the row). -/
def cumsum (l : List ℚ) : List ℚ := go 0 l where
  go (acc : ℚ) : List ℚ → List ℚ
    | [] => []
    | a :: t => (acc + a) :: go (acc + a) t

/-- Lines 114–122 of the source, per batch row: the tentative global
block ids right before `handle_orphan_tokens` is applied.
`fixed_block_mask` is the exclusive running sum of `1/global_block_size`,
`mask` maps valid entries to `1` and the rest to `-1000`, and the three
updates of `global_block_ids` follow. -/
def tentativeRow (gbs : Int) (row : List ℚ) : List ℚ :=
  let fbm0 := row.map (fun _ => 1 / (gbs : ℚ))
  let fixed_block_mask := (cumsum fbm0).zipWith (fun a b => a - b) fbm0
  let mask := row.map (fun a => if a ≠ 0 then (1 : ℚ) else -1000)
  let g1 := (mask.zipWith (fun a b => a + b) fixed_block_mask).map
    (fun q => ((⌊q - 1⌋ : Int) : ℚ))
  let g2 := g1.map (fun q => if q > -1 then q else -1)
  g2.zipWith (fun g a => g * a + a - 1) row

/-- The tentative global block ids of every batch row (the value of
`global_block_ids` after line 122 of the source). -/
def tentativeBlockIds (am : List (List ℚ)) (gbs : Int) : List (List ℚ) :=
  am.map (tentativeRow gbs)

/-- The tentative ids as the spec describes them, for comparison with the
code: "a cumulative count of valid tokens seen so far (inclusive running
sum of validity)", then `floor((cumulative_valid_count - 1) /
global_block_size)` at valid positions and `-1` at invalid positions. -/
def specTentativeRow (gbs : Int) (row : List ℚ) : List ℚ :=
  let cum := cumsum row
  (List.range row.length).map (fun p =>
    if row.getD p 0 ≠ 0 then ((⌊(cum.getD p 0 - 1) / (gbs : ℚ)⌋ : Int) : ℚ)
    else -1)

/-- Batch version of `specTentativeRow` (spec wording, not the code). -/
def specTentativeBlockIds (am : List (List ℚ)) (gbs : Int) : List (List ℚ) :=
  am.map (specTentativeRow gbs)

/-- Number of positions `p < seq` with `p % global_block_size ==
global_block_size - 1` (torch `remainder`) whose tentative id is `≥ 0`:
the `true_block_ends` count of `handle_orphan_tokens`. -/
def trueBlockEndsCount (gbs : Int) (seq : Nat) (g3 : List ℚ) : Nat :=
  ((List.range seq).filter
    (fun (p : Nat) =>
      tremainder (Int.ofNat p) gbs = gbs - 1 ∧ 0 ≤ g3.getD p 0)).length

/-- `full_blocks` of `handle_orphan_tokens` (float valued in the code). -/
def fullBlocksRow (gbs : Int) (seq : Nat) (g3 : List ℚ) : ℚ :=
  (trueBlockEndsCount gbs seq g3 : ℚ) - 1

/-- `handle_orphan_tokens` per row.  The source computes
`full_blocks.where_self(&block_ids.lt_tensor(&full_blocks), &full_blocks)`,
i.e. `where(block_ids < full_blocks, full_blocks, full_blocks)`: both
branches are `full_blocks`. -/
def handleOrphanRow (gbs : Int) (seq : Nat) (g3 : List ℚ) : List ℚ :=
  let full_blocks := fullBlocksRow gbs seq g3
  g3.map (fun g => if g < full_blocks then full_blocks else full_blocks)

/-- Row-wise maximum (torch `max_dim` over the sequence axis; only used
on non-empty rows). -/
def rowMax (l : List ℚ) : ℚ := l.foldl max (l.headD 0)

/-- `make_global_fixed_block_ids` from the source, on a `[batch, seq]`
mask given as rows.  `global_block_size = 0` errors (integer `remainder`
by zero inside `handle_orphan_tokens`); a negative `num_globals`
(`seq_length / global_block_size` with Rust truncated division) makes
`Tensor::ones` error.  The final `to_kind(Int)` conversions are exact
(all values are integral), written as floors.  When `num_globals = 0`
both branches produce an empty segment row, as the code's
`else` branch does. -/
def make_global_fixed_block_ids (am : List (List ℚ)) (gbs : Int) :
    Option (List (List Int) × List (List Int)) :=
  let seq : Nat := (am.headD []).length
  if gbs = 0 then none
  else
    let global_block_ids :=
      am.map (fun row => handleOrphanRow gbs seq (tentativeRow gbs row))
    let num_globals : Int := Int.tdiv (seq : Int) gbs
    if num_globals < 0 then none
    else
      let global_segment_ids := global_block_ids.map (fun row =>
        let m := rowMax row
        (List.range num_globals.toNat).map
          (fun g => if ((g : ℚ) + 1) ≤ m then (1 : Int) else 0))
      some (global_block_ids.map (fun row => row.map (fun q => ⌊q⌋)),
        global_segment_ids)

/-! ### Helper lemmas -/

/-- Rust's `-n % L` on a non-negative `n`: minus the natural remainder. -/
theorem tmod_neg_natCast (n : Nat) (L : Int) :
    Int.tmod (-(n : Int)) L = -((n % L.natAbs : Nat) : Int) := by
  cases n with
  | zero => simp [Int.zero_tmod]
  | succ m =>
    have h1 : (-((m + 1 : Nat) : Int)) = Int.negSucc m := rfl
    rw [h1]
    cases L with
    | ofNat k =>
      show -(((m + 1) % k : Nat) : Int) = _
      simp [Int.natAbs]
    | negSucc k =>
      show -(((m + 1) % (k + 1) : Nat) : Int) = _
      simp [Int.natAbs]

/-- Two nested loops over `range` with a row-major linear index flatten to
one loop. -/
theorem flatMap_range_map (m n : Nat) (f : Nat → α) :
    (List.range m).flatMap
        (fun i => (List.range n).map (fun j => f (i * n + j)))
      = (List.range (m * n)).map f := by
  induction m with
  | zero => simp
  | succ m ih =>
    rw [List.range_succ, List.flatMap_append, ih,
      show (m + 1) * n = m * n + n by ring, List.range_add, List.map_append]
    simp only [List.flatMap_cons, List.flatMap_nil, List.append_nil,
      List.map_map, Function.comp_def]

/-- Reading every index back with `getD` reconstructs the list. -/
theorem map_range_getD (l : List ℚ) :
    (List.range l.length).map (fun t => l.getD t 0) = l := by
  induction l with
  | nil => simp
  | cons a t ih =>
    rw [List.length_cons, List.range_succ_eq_map, List.map_cons, List.map_map]
    simpa [Function.comp_def] using ih

/-- Length of a `flatMap` whose pieces all have length `n`. -/
theorem length_flatMap_const (L : List β) (f : β → List α) (n : Nat)
    (h : ∀ b ∈ L, (f b).length = n) : (L.flatMap f).length = L.length * n := by
  induction L with
  | nil => simp
  | cons b t ih =>
    rw [List.flatMap_cons, List.length_append, List.length_cons,
      h b (by simp), ih (fun c hc => h c (by simp [hc]))]
    ring

/-- Pointwise-equal functions give equal `flatMap`s. -/
theorem flatMap_congr_mem {l : List α} {f g : α → List β}
    (h : ∀ a ∈ l, f a = g a) : l.flatMap f = l.flatMap g := by
  induction l with
  | nil => rfl
  | cons a t ih =>
    rw [List.flatMap_cons, List.flatMap_cons, h a (by simp),
      ih (fun b hb => h b (by simp [hb]))]

/-- Setting an entry to its own value is the identity. -/
theorem set_getD_self (l : List α) (i : Nat) (d : α) (h : i < l.length) :
    l.set i (l.getD i d) = l := by
  induction l generalizing i with
  | nil => simp at h
  | cons a t ih =>
    cases i with
    | zero => simp
    | succ j =>
      simp only [List.getD_cons_succ, List.set_cons_succ, List.cons.injEq,
        true_and]
      exact ih j (by simpa using h)

/-- A product of sizes splits at any in-range position. -/
theorem prod_decomp (l : List Nat) (dim : Nat) (h : dim < l.length) :
    l.prod = (l.take dim).prod * (l.getD dim 0 * (l.drop (dim + 1)).prod) := by
  conv_lhs => rw [← List.prod_take_mul_prod_drop l dim]
  rw [List.drop_eq_getElem_cons h, List.prod_cons, List.getD_eq_getElem _ _ h]

/-- `padDim` succeeds exactly when `dim` is in range and the new size is
non-negative, and the result is the explicit padded tensor. -/
theorem padDim_eq_some (x : Tensor) (dim : Nat) (left right : Int) (v : ℚ)
    (hdim : dim < x.shape.length)
    (hok : 0 ≤ (x.shape.getD dim 0 : Int) + left + right) :
    x.padDim dim left right v = some
      ⟨x.shape.set dim ((x.shape.getD dim 0 : Int) + left + right).toNat,
        (List.range (x.shape.take dim).prod).flatMap (fun o =>
          (List.range ((x.shape.getD dim 0 : Int) + left + right).toNat).flatMap
            (fun i => (List.range (x.shape.drop (dim + 1)).prod).map (fun j =>
              let src : Int := (i : Int) - left
              if 0 ≤ src ∧ src < (x.shape.getD dim 0 : Int) then
                x.data.getD
                  (o * (x.shape.getD dim 0 * (x.shape.drop (dim + 1)).prod)
                    + src.toNat * (x.shape.drop (dim + 1)).prod + j) 0
              else v)))⟩ := by
  unfold Tensor.padDim
  rw [if_pos hdim, if_neg (by omega)]

/-- Any successful `padDim` output is well-formed. -/
theorem padDim_wf (x : Tensor) (dim : Nat) (left right : Int) (v : ℚ)
    (y : Tensor) (h : x.padDim dim left right v = some y) : y.wf := by
  unfold Tensor.padDim at h
  by_cases hdim : dim < x.shape.length
  · rw [if_pos hdim] at h
    by_cases hneg : ((x.shape.getD dim 0 : Int) + left + right) < 0
    · rw [if_pos hneg] at h; exact absurd h (by simp)
    · rw [if_neg hneg] at h
      injection h with h
      subst h
      unfold Tensor.wf
      have hlen : ∀ o : Nat,
          ((List.range ((x.shape.getD dim 0 : Int) + left + right).toNat).flatMap
            (fun i => (List.range (x.shape.drop (dim + 1)).prod).map (fun j =>
              let src : Int := (i : Int) - left
              if 0 ≤ src ∧ src < (x.shape.getD dim 0 : Int) then
                x.data.getD
                  (o * (x.shape.getD dim 0 * (x.shape.drop (dim + 1)).prod)
                    + src.toNat * (x.shape.drop (dim + 1)).prod + j) 0
              else v))).length
          = ((x.shape.getD dim 0 : Int) + left + right).toNat
              * (x.shape.drop (dim + 1)).prod := by
        intro o
        rw [length_flatMap_const _ _ ((x.shape.drop (dim + 1)).prod)
          (by intro b _; simp), List.length_range]
      rw [length_flatMap_const _ _
          (((x.shape.getD dim 0 : Int) + left + right).toNat
            * (x.shape.drop (dim + 1)).prod) (fun o _ => hlen o),
        List.length_range, List.prod_set, if_pos hdim]
      have : (List.drop (dim + 1) x.shape).prod
          = (x.shape.drop (dim + 1)).prod := rfl
      ring
  · rw [if_neg hdim] at h; exact absurd h (by simp)

/-- `padDim` with zero padding on both sides is the identity. -/
theorem padDim_id (x : Tensor) (dim : Nat) (v : ℚ) (hwf : x.wf)
    (hdim : dim < x.shape.length) : x.padDim dim 0 0 v = some x := by
  rw [padDim_eq_some x dim 0 0 v hdim (by omega)]
  congr 1
  have hsz : ((x.shape.getD dim 0 : Int) + 0 + 0).toNat = x.shape.getD dim 0 := by
    omega
  refine Tensor.ext ?_ ?_
  · rw [hsz]
    exact set_getD_self _ _ _ hdim
  · rw [hsz]
    set sz := x.shape.getD dim 0 with hszdef
    set inner := (x.shape.drop (dim + 1)).prod with hinner
    set outer := (x.shape.take dim).prod with houter
    have hbody : ∀ o ∈ List.range outer,
        (List.range sz).flatMap (fun i => (List.range inner).map (fun j =>
            let src : Int := (i : Int) - 0
            if 0 ≤ src ∧ src < (sz : Int) then
              x.data.getD (o * (sz * inner) + src.toNat * inner + j) 0
            else v))
          = (List.range (sz * inner)).map
              (fun t => x.data.getD (o * (sz * inner) + t) 0) := by
      intro o _
      rw [← flatMap_range_map sz inner
        (fun t => x.data.getD (o * (sz * inner) + t) 0)]
      refine flatMap_congr_mem ?_
      intro i hi
      rw [List.mem_range] at hi
      refine List.map_congr_left ?_
      intro j _
      have hsrc : (0 ≤ (i : Int) - 0 ∧ (i : Int) - 0 < (sz : Int)) := by omega
      rw [if_pos hsrc]
      have h0 : ((i : Int) - 0).toNat = i := by omega
      simp only [h0]
      congr 1
      ring
    rw [flatMap_congr_mem hbody,
      flatMap_range_map outer (sz * inner) (fun t => x.data.getD t 0)]
    have hprod : outer * (sz * inner) = x.data.length := by
      rw [hwf, prod_decomp x.shape dim hdim]
    rw [hprod, map_range_getD]

/-- Folding pad steps whose amounts are all zero leaves a well-formed
tensor unchanged. -/
theorem foldl_padDim_id (R : Nat) (pv : List Int) (v : ℚ) (hR1 : 1 ≤ R)
    (ks : List Nat) (t : Tensor) (hwf : t.wf) (hlen : t.shape.length = R)
    (hks : ∀ k ∈ ks, pv.getD (2 * k) 0 = 0 ∧ pv.getD (2 * k + 1) 0 = 0) :
    ks.foldl (fun acc k => acc.bind fun u =>
        u.padDim (R - 1 - k) (pv.getD (2 * k) 0) (pv.getD (2 * k + 1) 0) v)
      (some t) = some t := by
  induction ks with
  | nil => rfl
  | cons k ks ih =>
    rw [List.foldl_cons]
    have hk := hks k (by simp)
    rw [hk.1, hk.2]
    rw [show (some t).bind (fun u => u.padDim (R - 1 - k) 0 0 v)
        = t.padDim (R - 1 - k) 0 0 v from rfl,
      padDim_id t (R - 1 - k) v hwf (by omega)]
    exact ih (fun j hj => hks j (by simp [hj]))

/-- The pad vector built by `pad_to_multiple` (a single entry `p` at flat
index `2*dim+1`, then reversed) has `p` at flat index `2*(R-1-dim)` and
zeros elsewhere. -/
theorem padvec_getD (R dim : Nat) (p : Int) (hdim : dim < R) (i : Nat) :
    ((List.replicate (2 * R) (0 : Int)).set (2 * dim + 1) p).reverse.getD i 0
      = if i = 2 * (R - 1 - dim) then p else 0 := by
  have hlen : ((List.replicate (2 * R) (0 : Int)).set (2 * dim + 1) p).reverse.length
      = 2 * R := by simp
  by_cases hi : i < 2 * R
  · rw [List.getD_eq_getElem _ _ (by omega)]
    rw [List.getElem_reverse]
    rw [List.getElem_set]
    simp only [List.length_set, List.length_replicate] at *
    rw [List.getElem_replicate]
    have hcond : (2 * dim + 1 = 2 * R - 1 - i) ↔ (i = 2 * (R - 1 - dim)) := by
      omega
    by_cases hc : i = 2 * (R - 1 - dim)
    · rw [if_pos (by omega), if_pos hc]
    · rw [if_neg (by omega), if_neg hc]
  · rw [List.getD_eq_default _ _ (by omega)]
    rw [if_neg (by omega)]

/-- `torchPad` on the single-sided pad vector of `pad_to_multiple` is a
single `padDim` of `p` on the left of `dim`. -/
theorem torchPad_single (x : Tensor) (dim : Nat) (p : Int) (v : ℚ)
    (hdim : dim < x.shape.length) (hwf : x.wf)
    (hok : 0 ≤ (x.shape.getD dim 0 : Int) + p) :
    torchPad x (((List.replicate (2 * x.shape.length) (0 : Int)).set
        (2 * dim + 1) p).reverse) v
      = x.padDim dim p 0 v := by
  set R := x.shape.length with hR
  set pv := ((List.replicate (2 * R) (0 : Int)).set (2 * dim + 1) p).reverse
    with hpv
  have hlen : pv.length = 2 * R := by simp [hpv]
  have hget := padvec_getD R dim p hdim
  unfold torchPad
  rw [hlen]
  rw [if_neg (by omega)]
  have hhalf : 2 * R / 2 = R := by omega
  rw [hhalf]
  -- split the fold at the one active step k* = R - 1 - dim
  have hk : R = (R - 1 - dim) + (1 + dim) := by omega
  rw [hk, List.range_add, List.foldl_append]
  have hfirst : (List.range (R - 1 - dim)).foldl (fun acc k => acc.bind fun u =>
      u.padDim (R - 1 - k) (pv.getD (2 * k) 0) (pv.getD (2 * k + 1) 0) v)
      (some x) = some x := by
    refine foldl_padDim_id R pv v (by omega) _ x hwf rfl ?_
    intro k hkmem
    rw [List.mem_range] at hkmem
    constructor
    · rw [hget (2 * k), if_neg (by omega)]
    · rw [hget (2 * k + 1), if_neg (by omega)]
  rw [hfirst]
  rw [Nat.add_comm 1 dim, List.range_succ_eq_map, List.map_cons,
    List.foldl_cons, List.map_map]
  simp only [Nat.add_zero]
  have hstep : pv.getD (2 * (R - 1 - dim)) 0 = p := by
    rw [hget, if_pos rfl]
  have hstep2 : pv.getD (2 * (R - 1 - dim) + 1) 0 = 0 := by
    rw [hget, if_neg (by omega)]
  rw [hstep, hstep2]
  have hdimeq : R - 1 - (R - 1 - dim) = dim := by omega
  rw [hdimeq]
  have hy : x.padDim dim p 0 v = some
      ⟨x.shape.set dim ((x.shape.getD dim 0 : Int) + p + 0).toNat, _⟩ :=
    padDim_eq_some x dim p 0 v hdim (by omega)
  rw [show (some x).bind (fun u => u.padDim dim p 0 v) = x.padDim dim p 0 v
    from rfl]
  rw [hy]
  refine foldl_padDim_id R pv v (by omega) _ _
    (padDim_wf x dim p 0 v _ hy) (by simp [hR]) ?_
  intro k hkmem
  rw [List.mem_map] at hkmem
  obtain ⟨j, hj, hjk⟩ := hkmem
  rw [List.mem_range] at hj
  simp only [Function.comp_apply, Nat.succ_eq_add_one] at hjk
  constructor
  · rw [hget (2 * k), if_neg (by omega)]
  · rw [hget (2 * k + 1), if_neg (by omega)]

/-- `getD` after `set` at the same in-range index gives the new value. -/
theorem getD_set_self (l : List α) (i : Nat) (a d : α) (h : i < l.length) :
    (l.set i a).getD i d = a := by
  rw [List.getD_eq_getElem _ _ (by simpa using h), List.getElem_set,
    if_pos rfl]

/-- `pad_to_multiple` in the no-zero-dimension branch is one left-sided
`padDim` by the (non-positive) Rust pad length. -/
theorem pad_to_multiple_eq_padDim (x : Tensor) (L : Int) (dim : Nat) (v : ℚ)
    (hL : 1 ≤ L) (hdim : dim < x.shape.length) (hwf : x.wf)
    (hz : x.shape.any (fun el => el = 0) = false) :
    pad_to_multiple x L dim v
      = x.padDim dim (Int.tmod (-(x.shape.getD dim 0 : Int)) L) 0 v := by
  have hok : 0 ≤ (x.shape.getD dim 0 : Int)
      + Int.tmod (-(x.shape.getD dim 0 : Int)) L := by
    rw [tmod_neg_natCast]
    have := Nat.mod_le (x.shape.getD dim 0) L.natAbs
    omega
  unfold pad_to_multiple
  rw [if_neg (by omega), if_pos hdim, if_neg (by simp [hz])]
  exact torchPad_single x dim _ v hdim hwf hok

/-- `pad_to_multiple` in the zero-dimension branch: an all-zero tensor of
the truncated shape. -/
theorem pad_to_multiple_eq_zeros (x : Tensor) (L : Int) (dim : Nat) (v : ℚ)
    (hL : 1 ≤ L) (hdim : dim < x.shape.length)
    (hz : x.shape.any (fun el => el = 0) = true) :
    pad_to_multiple x L dim v = some (Tensor.zeros (x.shape.set dim
      (x.shape.getD dim 0 - x.shape.getD dim 0 % L.natAbs))) := by
  unfold pad_to_multiple
  rw [if_neg (by omega), if_pos hdim, if_pos hz]
  have hts : ((x.shape.getD dim 0 : Int)
      + Int.tmod (-(x.shape.getD dim 0 : Int)) L).toNat
      = x.shape.getD dim 0 - x.shape.getD dim 0 % L.natAbs := by
    rw [tmod_neg_natCast]
    have := Nat.mod_le (x.shape.getD dim 0) L.natAbs
    omega
  rw [hts]

/-- Helper for C8: applying `pad_to_multiple` to its own output changes
nothing. -/
theorem pad_to_multiple_stable (x : Tensor) (L : Int) (dim : Nat) (v : ℚ)
    (hwf : x.wf) (hL : 1 ≤ L) (hdim : dim < x.shape.length) :
    (pad_to_multiple x L dim v).bind (fun y => pad_to_multiple y L dim v)
      = pad_to_multiple x L dim v := by
  have hmodle := Nat.mod_le (x.shape.getD dim 0) L.natAbs
  have hdm := Nat.div_add_mod (x.shape.getD dim 0) L.natAbs
  have hk1 : 1 ≤ L.natAbs := by omega
  have hmmod : (x.shape.getD dim 0 - x.shape.getD dim 0 % L.natAbs)
      % L.natAbs = 0 := by
    have h1 : x.shape.getD dim 0 - x.shape.getD dim 0 % L.natAbs
        = L.natAbs * (x.shape.getD dim 0 / L.natAbs) := by omega
    rw [h1]
    exact Nat.mul_mod_right _ _
  have htm0 : ∀ mm : Nat, mm % L.natAbs = 0 → Int.tmod (-(mm : Int)) L = 0 := by
    intro mm hmm
    rw [tmod_neg_natCast, hmm]
    simp
  rcases Bool.eq_false_or_eq_true (x.shape.any (fun el => el = 0)) with hz | hz
  · -- a zero dimension: both calls take the `Tensor::zeros` branch
    rw [pad_to_multiple_eq_zeros x L dim v hL hdim hz]
    show pad_to_multiple (Tensor.zeros (x.shape.set dim
      (x.shape.getD dim 0 - x.shape.getD dim 0 % L.natAbs))) L dim v = _
    have hdim' : dim < (Tensor.zeros (x.shape.set dim
        (x.shape.getD dim 0 - x.shape.getD dim 0 % L.natAbs))).shape.length := by
      simpa [Tensor.zeros] using hdim
    have hget' : (Tensor.zeros (x.shape.set dim
        (x.shape.getD dim 0 - x.shape.getD dim 0 % L.natAbs))).shape.getD dim 0
        = x.shape.getD dim 0 - x.shape.getD dim 0 % L.natAbs :=
      getD_set_self _ _ _ _ hdim
    have hz' : (Tensor.zeros (x.shape.set dim
        (x.shape.getD dim 0 - x.shape.getD dim 0 % L.natAbs))).shape.any
        (fun el => el = 0) = true := by
      show (x.shape.set dim _).any (fun el => el = 0) = true
      rw [List.any_eq_true] at hz ⊢
      obtain ⟨s, hs, hs0⟩ := hz
      rw [List.mem_iff_getElem] at hs
      obtain ⟨i0, hi0, hgi⟩ := hs
      refine ⟨0, ?_, by simp⟩
      rw [List.mem_iff_getElem]
      refine ⟨i0, by simpa using hi0, ?_⟩
      rw [List.getElem_set]
      by_cases hcase : dim = i0
      · rw [if_pos hcase]
        have hn0 : x.shape.getD dim 0 = 0 := by
          rw [List.getD_eq_getElem _ _ (by omega)]
          subst hcase
          rw [hgi]
          simpa using hs0
        omega
      · rw [if_neg hcase, hgi]
        simpa using hs0
    rw [pad_to_multiple_eq_zeros _ L dim v hL hdim' hz']
    rw [hget', hmmod, Nat.sub_zero]
    show some (Tensor.zeros ((x.shape.set dim _).set dim _)) = _
    rw [List.set_set]
  · -- no zero dimension: the first call is a single left `padDim`
    have hne : ∀ s ∈ x.shape, s ≠ 0 := by
      intro s hs h0
      exact (List.any_eq_false.mp hz) s hs (by simp [h0])
    rw [pad_to_multiple_eq_padDim x L dim v hL hdim hwf hz]
    obtain ⟨y, hy, hyshape⟩ : ∃ y,
        x.padDim dim (Int.tmod (-(x.shape.getD dim 0 : Int)) L) 0 v = some y ∧
        y.shape = x.shape.set dim
          (x.shape.getD dim 0 - x.shape.getD dim 0 % L.natAbs) := by
      refine ⟨_, padDim_eq_some x dim _ 0 v hdim
        (by rw [tmod_neg_natCast]; omega), ?_⟩
      show x.shape.set dim _ = x.shape.set dim _
      congr 1
      rw [tmod_neg_natCast]
      omega
    have hywf : y.wf := padDim_wf x dim _ 0 v y hy
    have hydim : dim < y.shape.length := by
      rw [hyshape]
      simpa using hdim
    have hyget : y.shape.getD dim 0
        = x.shape.getD dim 0 - x.shape.getD dim 0 % L.natAbs := by
      rw [hyshape]
      exact getD_set_self _ _ _ _ hdim
    rw [hy]
    show pad_to_multiple y L dim v = some y
    by_cases hm0 : x.shape.getD dim 0 - x.shape.getD dim 0 % L.natAbs = 0
    · -- the trim emptied the dimension: the second call rebuilds `y` as zeros
      have h0 : y.shape.getD dim 0 = 0 := by rw [hyget]; exact hm0
      have hz2 : y.shape.any (fun el => el = 0) = true := by
        rw [List.any_eq_true]
        refine ⟨0, ?_, by simp⟩
        rw [List.mem_iff_getElem]
        refine ⟨dim, hydim, ?_⟩
        rw [← List.getD_eq_getElem y.shape 0 hydim]
        exact h0
      rw [pad_to_multiple_eq_zeros y L dim v hL hydim hz2]
      rw [h0]
      have hset0 : y.shape.set dim (0 - 0 % L.natAbs) = y.shape := by
        rw [hyshape, List.set_set]
        congr 1
        omega
      rw [hset0]
      have hprod0 : y.shape.prod = 0 := by
        refine List.prod_eq_zero ?_
        rw [List.mem_iff_getElem]
        refine ⟨dim, hydim, ?_⟩
        rw [← List.getD_eq_getElem y.shape 0 hydim]
        exact h0
      have hdata : y.data = [] := by
        refine List.eq_nil_of_length_eq_zero ?_
        have hl := hywf
        unfold Tensor.wf at hl
        rw [hprod0] at hl
        exact hl
      refine congrArg some ?_
      refine Tensor.ext ?_ ?_
      · rfl
      · show List.replicate y.shape.prod 0 = y.data
        rw [hprod0, hdata]
        rfl
    · -- the trimmed size is positive: the second pad is the identity
      have hz2 : y.shape.any (fun el => el = 0) = false := by
        rw [List.any_eq_false]
        intro s hs
        rw [hyshape] at hs
        simp only [decide_eq_true_eq]
        intro h0
        rcases List.mem_or_eq_of_mem_set hs with hmem | hval
        · exact hne s hmem h0
        · rw [h0] at hval
          exact hm0 hval.symm
      rw [pad_to_multiple_eq_padDim y L dim v hL hydim hywf hz2, hyget,
        htm0 _ hmmod, padDim_id y dim v hywf hydim]

/-- `cumsum` of a constant list, in closed form. -/
theorem cumsum_go_replicate (c : ℚ) :
    ∀ (n : Nat) (acc : ℚ), cumsum.go acc (List.replicate n c)
      = (List.range n).map (fun p : Nat => acc + ((p : ℚ) + 1) * c) := by
  intro n
  induction n with
  | zero => intro acc; simp [cumsum.go]
  | succ m ih =>
    intro acc
    rw [List.replicate_succ]
    show (acc + c) :: cumsum.go (acc + c) (List.replicate m c) = _
    rw [ih (acc + c), List.range_succ_eq_map, List.map_cons, List.map_map]
    congr 1
    · push_cast
      ring
    · refine List.map_congr_left ?_
      intro p _
      simp only [Function.comp_apply, Nat.succ_eq_add_one]
      push_cast
      ring

/-- `zipWith` of two maps over the same `range`. -/
theorem zipWith_map_range (g : ℚ → ℚ → ℚ) :
    ∀ (n : Nat) (f h : Nat → ℚ),
      List.zipWith g ((List.range n).map f) ((List.range n).map h)
        = (List.range n).map (fun p => g (f p) (h p)) := by
  intro n
  induction n with
  | zero => simp
  | succ m ih =>
    intro f h
    rw [List.range_succ_eq_map]
    simp only [List.map_cons, List.map_map, List.zipWith_cons_cons]
    rw [show ((List.range m).map (f ∘ Nat.succ)) =
        (List.range m).map (fun p => f (Nat.succ p)) from rfl,
      show ((List.range m).map (h ∘ Nat.succ)) =
        (List.range m).map (fun p => h (Nat.succ p)) from rfl,
      ih (fun p => f (Nat.succ p)) (fun p => h (Nat.succ p))]
    rfl

/-- `zipWith` of a mapped row with a map over its index range. -/
theorem zipWith_map_row (g : ℚ → ℚ → ℚ) (m : ℚ → ℚ) :
    ∀ (row : List ℚ) (h : Nat → ℚ),
      List.zipWith g (row.map m) ((List.range row.length).map h)
        = (List.range row.length).map
            (fun p => g (m (row.getD p 0)) (h p)) := by
  intro row
  induction row with
  | nil => simp
  | cons a t ih =>
    intro h
    rw [List.length_cons, List.range_succ_eq_map]
    simp only [List.map_cons, List.map_map, List.zipWith_cons_cons]
    rw [show ((List.range t.length).map (h ∘ Nat.succ)) =
        (List.range t.length).map (fun p => h (Nat.succ p)) from rfl,
      ih (fun p => h (Nat.succ p))]
    congr 1

/-- `zipWith` of a map over the index range with the row itself. -/
theorem zipWith_range_row (g : ℚ → ℚ → ℚ) :
    ∀ (row : List ℚ) (h : Nat → ℚ),
      List.zipWith g ((List.range row.length).map h) row
        = (List.range row.length).map
            (fun p => g (h p) (row.getD p 0)) := by
  intro row
  induction row with
  | nil => simp
  | cons a t ih =>
    intro h
    rw [List.length_cons, List.range_succ_eq_map]
    simp only [List.map_cons, List.map_map, List.zipWith_cons_cons]
    rw [show ((List.range t.length).map (h ∘ Nat.succ)) =
        (List.range t.length).map (fun p => h (Nat.succ p)) from rfl,
      ih (fun p => h (Nat.succ p))]
    congr 1

/-- Closed form of the tentative global block ids of one row (lines
114–122 of the source): at position `p` the value is a function of the
mask entry and the exclusive position count `p / global_block_size`. -/
theorem tentativeRow_eq (gbs : Int) (row : List ℚ) :
    tentativeRow gbs row = (List.range row.length).map (fun p =>
      let a := row.getD p 0
      let g1 : ℚ := ((⌊(if a ≠ 0 then (1 : ℚ) else -1000)
        + (((p : ℚ) + 1) * (1 / (gbs : ℚ)) - 1 / (gbs : ℚ)) - 1⌋ : Int) : ℚ)
      (if g1 > -1 then g1 else -1) * a + a - 1) := by
  have hrng : List.replicate row.length (1 / (gbs : ℚ))
      = (List.range row.length).map (fun _ => 1 / (gbs : ℚ)) := by
    rw [List.map_const', List.length_range]
  unfold tentativeRow
  dsimp only
  simp only [List.map_const']
  rw [show cumsum (List.replicate row.length (1 / (gbs : ℚ)))
      = cumsum.go 0 (List.replicate row.length (1 / (gbs : ℚ))) from rfl,
    cumsum_go_replicate, hrng, zipWith_map_range, zipWith_map_row,
    List.map_map, List.map_map, zipWith_range_row]
  refine List.map_congr_left ?_
  intro p _
  simp only [Function.comp_apply, zero_add]

/-! ### Claim theorems -/

/-- C2 (counterexample): the claim's formula — tentative id
`floor((cumulative_valid_count - 1) / global_block_size)` at valid
positions — disagrees with the code on `[[1, 0, 1]]` with
`global_block_size = 1`: the code computes position-based ids `[0, -1, 2]`
while the spec formula gives `[0, -1, 1]`. -/
theorem c2_counterexample :
    tentativeBlockIds [[1, 0, 1]] 1 = [[0, -1, 2]] ∧
    specTentativeBlockIds [[1, 0, 1]] 1 = [[0, -1, 1]] ∧
    tentativeBlockIds [[1, 0, 1]] 1 ≠ specTentativeBlockIds [[1, 0, 1]] 1 := by
  have h1 : tentativeBlockIds [[1, 0, 1]] 1 = [[0, -1, 2]] := by
    norm_num [tentativeBlockIds, tentativeRow, cumsum, cumsum.go]
  have h2 : specTentativeBlockIds [[1, 0, 1]] 1 = [[0, -1, 1]] := by
    norm_num [specTentativeBlockIds, specTentativeRow, cumsum, cumsum.go,
      List.range_succ]
  refine ⟨h1, h2, ?_⟩
  rw [h1, h2]
  norm_num

/-- C2 (amended): for every `{0,1}` validity array and every
`global_block_size ≥ 1`, the tentative global block id before orphan
clamping equals `floor(p / global_block_size)` at every valid position
`p` (`p` the 0-based position index, i.e. the inclusive running count of
positions minus one), and `-1` at every invalid position. -/
theorem c2_tentative_ids (am : List (List ℚ)) (gbs : Int) (hg : 1 ≤ gbs)
    (hv : ∀ row ∈ am, ∀ a ∈ row, a = 0 ∨ a = 1) :
    tentativeBlockIds am gbs = am.map (fun row =>
      (List.range row.length).map (fun p =>
        if row.getD p 0 = 1 then ((p / gbs.toNat : Nat) : ℚ) else -1)) := by
  unfold tentativeBlockIds
  refine List.map_congr_left ?_
  intro row hrow
  rw [tentativeRow_eq]
  refine List.map_congr_left ?_
  intro p hp
  rw [List.mem_range] at hp
  have hmem : row.getD p 0 ∈ row := by
    rw [List.getD_eq_getElem _ _ hp]
    exact List.getElem_mem _
  dsimp only
  rcases hv row hrow _ hmem with h0 | h1
  · rw [h0]
    have hRHS : (if (0 : ℚ) = 1 then ((p / gbs.toNat : Nat) : ℚ) else -1)
        = -1 := by norm_num
    rw [hRHS]
    ring
  · have hmask : (if (1 : ℚ) ≠ 0 then (1 : ℚ) else -1000) = 1 := by norm_num
    rw [h1, if_pos rfl, hmask]
    have hgq : ((gbs.toNat : Nat) : ℚ) = (gbs : ℚ) := by
      have h2 : ((gbs.toNat : Nat) : Int) = gbs := Int.toNat_of_nonneg (by omega)
      exact_mod_cast congrArg (fun z : Int => (z : ℚ)) h2
    have harg : (1 : ℚ) + (((p : ℚ) + 1) * (1 / (gbs : ℚ)) - 1 / (gbs : ℚ)) - 1
        = (p : ℚ) / ((gbs.toNat : Nat) : ℚ) := by
      rw [hgq]
      ring
    have hdiv : ((p : Int) / (gbs.toNat : Int)) = ((p / gbs.toNat : Nat) : Int) := by
      norm_cast
    rw [harg, Rat.floor_natCast_div_natCast, hdiv]
    have hpos : (0 : ℚ) ≤ (((p / gbs.toNat : Nat) : Int) : ℚ) := by
      push_cast
      positivity
    rw [if_pos (by linarith)]
    rw [mul_one, add_sub_cancel_right]
    norm_cast

/-- C2 (witness): the amended statement at the claim's own example,
validity `[[1,1,0,0]]` with `global_block_size = 2`, giving tentative ids
`[0, 0, -1, -1]`. -/
theorem c2_tentative_ids_witness :
    (1 ≤ (2 : Int) ∧ ∀ row ∈ [[(1 : ℚ), 1, 0, 0]], ∀ a ∈ row, a = 0 ∨ a = 1) ∧
    tentativeBlockIds [[1, 1, 0, 0]] 2 = [[0, 0, -1, -1]] := by
  refine ⟨⟨by norm_num, by decide⟩, ?_⟩
  rw [c2_tentative_ids [[1, 1, 0, 0]] 2 (by norm_num) (by decide)]
  decide

/-- C10: for every attention mask with `seq_len ≥ 1` and every
`global_block_size ≥ 1`, the returned `GlobalBlockIds` are constant along
the sequence axis within each batch row: every position carries the row's
count of complete-block-end positions occupied by non-negative tentative
ids, minus one (the `where_self` receiver in `handle_orphan_tokens` makes
both branches `full_blocks`). -/
theorem c10_ids_constant_rows (am : List (List ℚ)) (gbs : Int)
    (hg : 1 ≤ gbs) (hseq : 1 ≤ (am.headD []).length)
    (hrect : ∀ row ∈ am, row.length = (am.headD []).length) :
    ∃ seg, make_global_fixed_block_ids am gbs
      = some (am.map (fun row => List.replicate (am.headD []).length
          ((trueBlockEndsCount gbs (am.headD []).length
            (tentativeRow gbs row) : Int) - 1)), seg) := by
  unfold make_global_fixed_block_ids
  rw [if_neg (by omega)]
  dsimp only
  have hng : ¬ (Int.tdiv ((am.headD []).length : Int) gbs < 0) := by
    have := Int.tdiv_nonneg (a := ((am.headD []).length : Int)) (b := gbs)
      (by positivity) (by omega)
    omega
  rw [if_neg hng]
  refine ⟨_, congrArg some (Prod.ext ?_ rfl)⟩
  simp only [List.map_map]
  refine List.map_congr_left ?_
  intro row hrow
  simp only [Function.comp_apply]
  unfold handleOrphanRow
  dsimp only
  simp only [ite_self]
  rw [List.map_const', List.map_replicate]
  have hlen : (tentativeRow gbs row).length = (am.headD []).length := by
    rw [tentativeRow_eq]
    simp [hrect row hrow]
  rw [hlen]
  congr 1
  unfold fullBlocksRow
  have hcast : ((trueBlockEndsCount gbs (am.headD []).length
      (tentativeRow gbs row) : Nat) : ℚ) - 1
      = (((trueBlockEndsCount gbs (am.headD []).length
          (tentativeRow gbs row) : Nat) : Int) - 1 : Int) := by
    push_cast
    ring
  rw [hcast, Int.floor_intCast]

/-- C10 (witness): the constant-row form at validity `[[1,1,1]]` with
`global_block_size = 2`. -/
theorem c10_ids_constant_rows_witness :
    (1 ≤ (2 : Int) ∧ 1 ≤ (([[(1 : ℚ), 1, 1]].headD []).length) ∧
      ∀ row ∈ [[(1 : ℚ), 1, 1]],
        row.length = ([[(1 : ℚ), 1, 1]].headD []).length) ∧
    ∃ seg, make_global_fixed_block_ids [[1, 1, 1]] 2
      = some ([[(1 : ℚ), 1, 1]].map (fun row =>
          List.replicate ([[(1 : ℚ), 1, 1]].headD []).length
            ((trueBlockEndsCount 2 ([[(1 : ℚ), 1, 1]].headD []).length
              (tentativeRow 2 row) : Int) - 1)), seg) :=
  ⟨⟨by norm_num, by decide, by decide⟩,
    c10_ids_constant_rows [[1, 1, 1]] 2 (by norm_num) (by decide) (by decide)⟩

/-- C4 evaluation: `pad_to_multiple` on `[[1,2,3,4,5]]` with
`block_length = 2`, `dim = 1`, `pad_value = 9` returns the FRONT-TRIMMED
`[[2,3,4,5]]` of size 4, not the claimed ceil-padded `[[1,2,3,4,5,9]]` of
size 6: Rust's `-5 % 2 = -1` and the flat-reversed pad vector place a
negative pad on the left of `dim`. -/
theorem c4_pad_code_eval :
    pad_to_multiple ⟨[1, 5], [1, 2, 3, 4, 5]⟩ 2 1 9
      = some ⟨[1, 4], [2, 3, 4, 5]⟩ := by decide

/-- C5 evaluation: `split_into_blocks` on the 4-token mask `[[1,1,1,1]]`
with `block_length = 2` errors (the stale size vector keeps the original
entry 4, so the reshape target `[1,2,2,4]` has 16 elements against 4),
instead of producing `num_blocks = 2` blocks. -/
theorem c5_split_code_eval :
    split_into_blocks ⟨[1, 4], [1, 1, 1, 1]⟩ 2 1 = none := by decide

/-- C6 evaluation: `concatenate_3_blocks` on a `[1,2,2]` block-structured
input errors (the flat-reversed pad vector pads the batch front and the
block end only, so `narrow(1, 2, 2)` on the size-3 block axis is out of
range), instead of returning the `[1,2,6]` neighbor concatenation. -/
theorem c6_concat_code_eval :
    concatenate_3_blocks ⟨[1, 2, 2], [1, 2, 3, 4]⟩ 1 2 none = none := by
  decide

/-- C7 evaluation: `get_local_attention_mask` on validity `[[1,1]]` with
`block_length = 1` errors inside `split_into_blocks` (reshape of a
2-element mask to the stale shape `[1,2,1,2]`), so no local attention
mask is ever returned. -/
theorem c7_local_mask_code_eval :
    get_local_attention_mask ⟨[1, 2], [1, 1]⟩ 1 = none := by decide

/-- Shared evaluation: `make_global_fixed_block_ids` on `[[1,1]]` with
`global_block_size = -3` silently returns ids `[[-1,-1]]` and an empty
segment-mask row instead of rejecting the non-positive block size. -/
theorem make_global_neg3_eval :
    make_global_fixed_block_ids [[1, 1]] (-3)
      = some ([[-1, -1]], [[]]) := by
  have ht : tentativeRow (-3) [1, 1] = [0, -1] := by
    norm_num [tentativeRow, cumsum, cumsum.go]
  have hc : trueBlockEndsCount (-3) 2 [0, -1] = 0 := by decide
  have hf : fullBlocksRow (-3) 2 [0, -1] = -1 := by
    unfold fullBlocksRow
    rw [hc]
    norm_num
  have ho : handleOrphanRow (-3) 2 [0, -1] = [-1, -1] := by
    unfold handleOrphanRow
    dsimp only
    simp only [hf, ite_self]
    decide
  norm_num [make_global_fixed_block_ids, ht, ho, rowMax,
    (show Int.tdiv 2 (-3) = 0 by decide), (show Int.toNat 0 = 0 by decide)]

/-- C9 (counterexample): `make_global_fixed_block_ids` does not reject a
non-positive `global_block_size` (it silently returns on `-3`), and
`split_into_blocks` also fails for the positive `block_length = 2` on
`[[1,1,1,1]]`, so it does not fail only on non-positive block lengths. -/
theorem c9_counterexample :
    make_global_fixed_block_ids [[1, 1]] (-3) = some ([[-1, -1]], [[]]) ∧
    split_into_blocks ⟨[1, 4], [1, 1, 1, 1]⟩ 2 1 = none :=
  ⟨make_global_neg3_eval, by decide⟩

/-- C9 (amended): `split_into_blocks` with `block_length = 0` fails before
any array operation (Rust `%` by zero); it also fails for positive
`block_length` on ordinary inputs whose internal reshape is inconsistent;
`make_global_fixed_block_ids` with `global_block_size = 0` fails (integer
`remainder` by zero), but a negative `global_block_size` is not rejected:
`-3` on `[[1,1]]` returns ids `[[-1,-1]]` with an empty segment row. -/
theorem c9_error_behavior :
    (∀ (x : Tensor) (dim : Nat), split_into_blocks x 0 dim = none) ∧
    split_into_blocks ⟨[1, 4], [1, 1, 1, 1]⟩ 2 1 = none ∧
    (∀ am : List (List ℚ), make_global_fixed_block_ids am 0 = none) ∧
    make_global_fixed_block_ids [[1, 1]] (-3) = some ([[-1, -1]], [[]]) := by
  refine ⟨?_, by decide, ?_, make_global_neg3_eval⟩
  · intro x dim
    unfold split_into_blocks
    rw [if_pos rfl]
  · intro am
    unfold make_global_fixed_block_ids
    dsimp only
    rw [if_pos rfl]

/-- C9 (witness): the amended statement instantiated at concrete inputs. -/
theorem c9_error_behavior_witness :
    split_into_blocks ⟨[2], [1, 2]⟩ 0 0 = none ∧
    make_global_fixed_block_ids [[1]] 0 = none :=
  ⟨c9_error_behavior.1 _ _, c9_error_behavior.2.2.1 _⟩

/-- C8: padding to a multiple is idempotent — applying `pad_to_multiple`
to its own output (same `block_length`, `dim` and `pad_value`) returns
that output unchanged, for every well-formed array, every
`block_length ≥ 1` and every valid dimension index. -/
theorem c8_pad_idempotent (x : Tensor) (L : Int) (dim : Nat) (v : ℚ)
    (hwf : x.wf) (hL : 1 ≤ L) (hdim : dim < x.shape.length) :
    (pad_to_multiple x L dim v).bind (fun y => pad_to_multiple y L dim v)
      = pad_to_multiple x L dim v :=
  pad_to_multiple_stable x L dim v hwf hL hdim

/-- C8 (witness): idempotence at the concrete input `[[1,2,3,4,5]]`,
`block_length = 2`, `dim = 1`, `pad_value = 9`. -/
theorem c8_pad_idempotent_witness :
    ((⟨[1, 5], [1, 2, 3, 4, 5]⟩ : Tensor).wf ∧ 1 ≤ (2 : Int) ∧
      1 < (⟨[1, 5], [1, 2, 3, 4, 5]⟩ : Tensor).shape.length) ∧
    (pad_to_multiple ⟨[1, 5], [1, 2, 3, 4, 5]⟩ 2 1 9).bind
        (fun y => pad_to_multiple y 2 1 9)
      = pad_to_multiple ⟨[1, 5], [1, 2, 3, 4, 5]⟩ 2 1 9 :=
  ⟨⟨by decide, by norm_num, by decide⟩,
    c8_pad_idempotent ⟨[1, 5], [1, 2, 3, 4, 5]⟩ 2 1 9 (by decide)
      (by norm_num) (by decide)⟩

/-- C1 evaluation (spec scenario B): on validity `[[1,1,1,1,1]]` with
`global_block_size = 2` the code returns global block ids `[1,1,1,1,1]`
and segment mask `[true,false]` — not the claimed `[0,0,1,1,1]` /
`[true,true]`: `handle_orphan_tokens` returns `full_blocks` at every
position, and the segment cumsum is compared 1-based against the row
maximum. -/
theorem c1_orphan_code_eval :
    make_global_fixed_block_ids [[1, 1, 1, 1, 1]] 2
      = some ([[1, 1, 1, 1, 1]], [[1, 0]]) := by
  have ht : tentativeRow 2 [1, 1, 1, 1, 1] = [0, 0, 1, 1, 2] := by
    norm_num [tentativeRow, cumsum, cumsum.go]
  have hc : trueBlockEndsCount 2 5 [0, 0, 1, 1, 2] = 2 := by decide
  have hf : fullBlocksRow 2 5 [0, 0, 1, 1, 2] = 1 := by
    unfold fullBlocksRow
    rw [hc]
    norm_num
  have ho : handleOrphanRow 2 5 [0, 0, 1, 1, 2] = [1, 1, 1, 1, 1] := by
    unfold handleOrphanRow
    dsimp only
    simp only [hf, ite_self]
    decide
  norm_num [make_global_fixed_block_ids, ht, ho, rowMax, List.range_succ,
    (show Int.tdiv 5 2 = 2 by decide), (show Int.toNat 2 = 2 by decide)]

/-- C3 evaluation (spec scenario C): on validity `[[1,1,0,0]]` with
`global_block_size = 2` the code returns ids `[0,0,0,0]` and segment mask
`[false,false]` — not the claimed `g ≤ max` rule, which would make slot 0
active (`0 ≤ 0`): the segment cumsum is compared 1-based (without the
original `- 1`) against the row maximum. -/
theorem c3_segment_code_eval :
    make_global_fixed_block_ids [[1, 1, 0, 0]] 2
      = some ([[0, 0, 0, 0]], [[0, 0]]) := by
  have ht : tentativeRow 2 [1, 1, 0, 0] = [0, 0, -1, -1] := by
    norm_num [tentativeRow, cumsum, cumsum.go]
  have hc : trueBlockEndsCount 2 4 [0, 0, -1, -1] = 1 := by decide
  have hf : fullBlocksRow 2 4 [0, 0, -1, -1] = 0 := by
    unfold fullBlocksRow
    rw [hc]
    norm_num
  have ho : handleOrphanRow 2 4 [0, 0, -1, -1] = [0, 0, 0, 0] := by
    unfold handleOrphanRow
    dsimp only
    simp only [hf, ite_self]
    decide
  norm_num [make_global_fixed_block_ids, ht, ho, rowMax, List.range_succ,
    (show Int.tdiv 4 2 = 2 by decide), (show Int.toNat 2 = 2 by decide)]

end Longt5Attention
